import Mathlib

/-!
Two-phase commit simulation (`main.go`).

A shallow embedding of the coordinator/participant program and the properties
of its state machine.

Modelling conventions.

* A `*Participant` is a `Ptr` (an address); the `Heap` maps addresses to the
  participant objects.  Every participant of the program is allocated by
  `NewParticipant`, so addresses are never nil.
* The two channels of a participant (`response`, `ElectionChannel`) are created
  by `NewParticipant`, one pair per object, and never reassigned: a channel is
  identified with the address of its owner.  Both are unbuffered, so a channel
  has no contents of its own: a send completes only together with a receive.
* `p.State` is a Go `string`; it is kept as a `String`.
* `time.Sleep` only influences timing.  `rand.Intn(10)` in `Prepare` is the
  argument `r`.
* Goroutines started by `RingElection` block for ever in their send (nothing
  receives on an `ElectionChannel`) and touch neither `State` nor `response`;
  they are recorded in `Result.elections` and take no further part.
* A run-time panic is a value of `Panic`; the heap reached when the panic is
  raised is kept.
-/

namespace TwoPhaseCommit

/-! ## Constants (lines 10-18) -/

def Preparing : String := "PREPARING"
def Prepared : String := "PREPARED"
def Committing : String := "COMMITTING"
def Committed : String := "COMMITTED"
def Aborting : String := "ABORTING"
def Aborted : String := "ABORTED"
def Failure : String := "FAILURE"

/-! ## Data model (lines 20-28, 127-129) -/

/-- Address of a heap-allocated `Participant`. -/
abbrev Ptr := Nat

/-- Go `map[string]int` that has been made: association list, first binding wins. -/
abbrev GoMap := List (String × Int)

/-- Map read `m[k]`: a missing key, and any key of the nil map, reads as 0. -/
def GoMap.read (m : Option GoMap) (k : String) : Int :=
  match m with
  | none => 0
  | some l => (l.lookup k).getD 0

/-- Map write `m[k] = v` on a made map. -/
def GoMap.write (m : GoMap) (k : String) (v : Int) : GoMap :=
  (k, v) :: m.filter (fun e => e.1 != k)

/-- The struct `Coordinator`: the slice of registered participants. -/
structure Coordinator where
  participants : List Ptr
deriving DecidableEq, Repr

/-- The struct `Participant` without its two channels (see the header).
`ChandyLamport = none` is the nil map, `Coordinator = none` the nil pointer. -/
structure Participant where
  ID : String
  State : String
  ChandyLamport : Option GoMap
  IsCoordinator : Bool
  Coordinator : Option Coordinator
deriving DecidableEq, Repr

abbrev Heap := Ptr → Participant

/-- Run-time panics the program can raise. -/
inductive Panic
  | nilDereference     -- invalid memory address or nil pointer dereference
  | nilMapAssignment   -- assignment to entry in nil map
  | divideByZero       -- integer divide by zero
  | negativeWaitGroup  -- sync: negative WaitGroup counter
deriving DecidableEq, Repr

/-- What a call leaves behind: the heap, the values assigned to `p.State` in
order, the sends on election channels handed to new goroutines (index into the
coordinator's slice, message), and the panic if it did not return normally. -/
structure Result where
  heap : Heap
  trace : List String
  elections : List (Nat × String)
  panic : Option Panic

/-- The assignment `p.State = s`. -/
def setState (h : Heap) (p : Ptr) (s : String) : Heap :=
  Function.update h p { h p with State := s }

/-- The assignment `p.ChandyLamport = m`. -/
def setClock (h : Heap) (p : Ptr) (m : GoMap) : Heap :=
  Function.update h p { h p with ChandyLamport := some m }

/-! ## Participant (lines 30-125) -/

/-- Lines 30-39: the object `NewParticipant(id)` allocates. -/
def NewParticipant (id : String) : Participant :=
  { ID := id, State := Preparing, ChandyLamport := none,
    IsCoordinator := false, Coordinator := none }

/-- Lines 41-44. -/
def Participant.StartTransaction (h : Heap) (p : Ptr) : Heap :=
  setState h p Preparing

/-- Lines 46-51: a fresh map with one zero entry per listed participant. -/
def Participant.InitChandyLamportClock (h : Heap) (p : Ptr) (participants : List Ptr) : Heap :=
  participants.foldl
    (fun h q => setClock h p (GoMap.write ((h p).ChandyLamport.getD []) (h q).ID 0))
    (setClock h p [])

/-- Lines 54-58, the loop of `ChandyLamportSnapshot` over the remaining
participants.  The right-hand side is read first (a nil map reads 0); the write
panics on a nil map. -/
def Participant.ChandyLamportSnapshot.loop (p : Ptr) : List Ptr → Heap → Except Panic Heap
  | [], h => .ok h
  | q :: rest, h =>
    if (h q).ID ≠ (h p).ID then
      match (h p).ChandyLamport with
      | none => .error .nilMapAssignment
      | some m =>
        loop p rest (setClock h p (GoMap.write m (h q).ID (GoMap.read (h q).ChandyLamport (h q).ID)))
    else loop p rest h

/-- Lines 53-59.  `coordinator.participants` on a nil coordinator panics.  A
panic leaves the heap as it was: the nil-map write is the first write. -/
def Participant.ChandyLamportSnapshot (h : Heap) (p : Ptr) (coordinator : Option TwoPhaseCommit.Coordinator) :
    Except Panic Heap :=
  match coordinator with
  | none => .error .nilDereference
  | some c => Participant.ChandyLamportSnapshot.loop p c.participants h

/-- Line 62: `(len(coordinator.participants) + 1) % len(coordinator.participants)`.
A slice of pointers has fewer than `2^60` elements, so `len + 1` does not
overflow `int`. -/
def Participant.RingElection.nextID (c : TwoPhaseCommit.Coordinator) : Except Panic Nat :=
  if c.participants.length = 0 then .error .divideByZero
  else .ok ((c.participants.length + 1) % c.participants.length)

/-- Lines 61-66: the send `participants[nextID].ElectionChannel <- p.ID` that
the new goroutine is left with. -/
def Participant.RingElection (h : Heap) (p : Ptr) (coordinator : Option TwoPhaseCommit.Coordinator) :
    Except Panic (Nat × String) :=
  match coordinator with
  | none => .error .nilDereference
  | some c =>
    match Participant.RingElection.nextID c with
    | .error e => .error e
    | .ok nextID => .ok (nextID, (h p).ID)

/-- `wg.Done()` on a `*sync.WaitGroup`: `none` is the nil pointer, `some k` a
WaitGroup whose counter is `k`. -/
def WaitGroup.Done : Option Nat → Except Panic Nat
  | none => .error .nilDereference
  | some 0 => .error .negativeWaitGroup
  | some (k + 1) => .ok k

/-- Lines 71-87, the body of `Prepare` up to its return. -/
def Participant.Prepare.body (h : Heap) (p : Ptr) (coordinator : Option TwoPhaseCommit.Coordinator) (r : Nat) :
    Result :=
  match Participant.ChandyLamportSnapshot h p coordinator with
  | .error e => { heap := h, trace := [], elections := [], panic := some e }
  | .ok h1 =>
    let election : Except Panic (List (Nat × String)) :=
      if (h1 p).IsCoordinator then .ok []
      else match Participant.RingElection h1 p coordinator with
        | .error e => .error e
        | .ok s => .ok [s]
    match election with
    | .error e => { heap := h1, trace := [], elections := [], panic := some e }
    | .ok sends =>
      if r < 8 then
        { heap := setState h1 p Failure, trace := [Failure], elections := sends, panic := none }
      else
        { heap := setState h1 p Prepared, trace := [Prepared], elections := sends, panic := none }

/-- Lines 68-88.  The deferred `wg.Done()` runs when the body returns or
panics; the second component is the WaitGroup counter afterwards (`none` when
`Done` itself panicked).  The first panic raised is the one reported. -/
def Participant.Prepare (h : Heap) (p : Ptr) (coordinator : Option TwoPhaseCommit.Coordinator)
    (wg : Option Nat) (r : Nat) : Result × Option Nat :=
  let res := Participant.Prepare.body h p coordinator r
  match WaitGroup.Done wg with
  | .error e => ({ res with panic := res.panic <|> some e }, none)
  | .ok k => (res, some k)

/-- Outcome of the `select` at line 97: a value received on `p.response`, the
channel found closed, or the five-second timer. -/
inductive Recv
  | value (decision : String)
  | closed
  | timeout
deriving DecidableEq, Repr

/-- Lines 98-118: the assignments to `p.State` made by the chosen branch of
the `select`, in program order. -/
def Participant.CommitOrAbort.branch : Recv → List String
  | .value decision =>
    if decision = "COMMIT" then [Committing, Committed] else [Aborting, Aborted]
  | .closed => []
  | .timeout => [Aborted]

/-- Performs the assignments `p.State = s` for `s` in `writes`, in order. -/
def assignStates (h : Heap) (p : Ptr) (writes : List String) : Heap :=
  writes.foldl (fun h s => setState h p s) h

/-- Lines 90-121.  `ev` is the outcome of the `select` (used in state
Prepared), `r` the failure draw of the re-attempted `Prepare` (used in state
Failure). -/
def Participant.CommitOrAbort (h : Heap) (p : Ptr) (ev : Recv) (r : Nat) : Result :=
  if (h p).State = Failure then
    (Participant.Prepare h p (h p).Coordinator none r).1
  else if (h p).State = Prepared then
    { heap := assignStates h p (Participant.CommitOrAbort.branch ev),
      trace := Participant.CommitOrAbort.branch ev, elections := [], panic := none }
  else
    { heap := h, trace := [], elections := [], panic := none }

/-! ## Coordinator (lines 127-156) -/

/-- Lines 131-135. -/
def NewCoordinator : Coordinator := { participants := [] }

/-- Lines 137-139. -/
def Coordinator.AddParticipant (c : Coordinator) (p : Ptr) : Coordinator :=
  { participants := c.participants ++ [p] }

/-- Lines 141-146. -/
def Coordinator.StartTransaction (c : Coordinator) (h : Heap) : Heap :=
  c.participants.foldl Participant.StartTransaction h

/-- Lines 152-154: the calls `p.Prepare(c, &wg)` that `Coordinator.Prepare`
hands to new goroutines, as (receiver, coordinator argument). -/
def Coordinator.Prepare.launches (c : Coordinator) : List (Ptr × Coordinator) :=
  c.participants.map (fun p => (p, c))

/-! ## The decision phase (lines 158-174)

`Coordinator.CommitOrAbort` starts one goroutine per entry of the slice and
waits for all of them.  The goroutines are interleaved; the model is a step
function on configurations, driven by a schedule.  All `wg.Add(1)` precede
`wg.Wait()`, so the call returns exactly when every worker has run its deferred
`wg.Done()`. -/

/-- Control point of a worker (the function literal at lines 163-171). -/
inductive PC
  | start                        -- line 165, `p.State == Prepared` not yet evaluated
  | elseIf                       -- line 168, `p.State == Failure` not yet evaluated
  | send                         -- line 124, in `ReceiveDecision`, blocked in `p.response <- decision`
  | call                         -- line 167, the send is over, `p.CommitOrAbort()` not yet entered
  | select                       -- line 97, blocked in the `select`
  | writing (rest : List String) -- in the chosen branch, `rest` still to be assigned to `p.State`
  | done                         -- returned, `wg.Done()` has run
  | panicked                     -- the goroutine panicked: the program is gone
deriving DecidableEq, Repr

/-- One worker: the participant it was started for and where it stands. -/
structure Worker where
  p : Ptr
  pc : PC
deriving DecidableEq, Repr

/-- Configuration of a running `Coordinator.CommitOrAbort(decision)`.
`received` lists the calls of `ReceiveDecision` (receiver, argument) and
`skipped` the participants for which line 169 was printed, oldest first. -/
structure Config where
  heap : Heap
  decision : String
  workers : List Worker
  received : List (Ptr × String)
  skipped : List Ptr

/-- What the scheduler can let happen next. -/
inductive Choice
  | run (i : Nat) (r : Nat)  -- worker `i` takes its next step alone; `r` is its failure draw should it reach `Prepare`
  | deliver (i j : Nat)      -- the send of worker `i` meets the receive of worker `j` on the same channel
  | timeout (j : Nat)        -- the timer of the `select` of worker `j` fires
deriving DecidableEq, Repr

/-- Replaces the control point of worker `i`. -/
def Config.goto (c : Config) (i : Nat) (w : Worker) (pc : PC) : Config :=
  { c with workers := c.workers.set i { w with pc := pc } }

/-- The next step of worker `w` (number `i`) when it needs no partner. -/
def Worker.step (c : Config) (i : Nat) (w : Worker) (r : Nat) : Option Config :=
  match w.pc with
  | .start =>
    -- line 165, and the call at line 166
    if (c.heap w.p).State = Prepared then
      some { c.goto i w .send with received := c.received ++ [(w.p, c.decision)] }
    else
      some (c.goto i w .elseIf)
  | .elseIf =>
    -- lines 168-170
    if (c.heap w.p).State = Failure then
      some { c.goto i w .done with skipped := c.skipped ++ [w.p] }
    else
      some (c.goto i w .done)
  | .call =>
    -- lines 91-96: the switch of `Participant.CommitOrAbort`
    if (c.heap w.p).State = Failure then
      let res := (Participant.Prepare c.heap w.p (c.heap w.p).Coordinator none r).1
      some { c.goto i w (if res.panic.isSome then .panicked else .done) with heap := res.heap }
    else if (c.heap w.p).State = Prepared then
      some (c.goto i w .select)
    else
      some (c.goto i w .done)
  | .writing (s :: rest) =>
    some { c.goto i w (.writing rest) with heap := setState c.heap w.p s }
  | .writing [] => some (c.goto i w .done)
  | .send | .select | .done | .panicked => none

/-- One step of the program; `none` when the choice is not enabled.  A panic
in any goroutine ends the program. -/
def step (c : Config) : Choice → Option Config
  | .run i r =>
    if c.workers.any (fun w => w.pc = .panicked) then none else
    match c.workers[i]? with
    | none => none
    | some w => Worker.step c i w r
  | .deliver i j =>
    if c.workers.any (fun w => w.pc = .panicked) then none else
    match c.workers[i]?, c.workers[j]? with
    | some ws, some wr =>
      if ws.pc = .send ∧ wr.pc = .select ∧ ws.p = wr.p then
        some ((c.goto i ws .call).goto j wr
          (.writing (Participant.CommitOrAbort.branch (.value c.decision))))
      else none
    | _, _ => none
  | .timeout j =>
    if c.workers.any (fun w => w.pc = .panicked) then none else
    match c.workers[j]? with
    | some wr =>
      if wr.pc = .select then
        some (c.goto j wr (.writing (Participant.CommitOrAbort.branch .timeout)))
      else none
    | none => none

/-- Runs a schedule; `none` when one of its choices is not enabled. -/
def exec (c : Config) : List Choice → Option Config
  | [] => some c
  | ch :: rest =>
    match step c ch with
    | none => none
    | some c1 => exec c1 rest

/-- Lines 160-172: the configuration right after the workers are started. -/
def Coordinator.CommitOrAbort.init (c : Coordinator) (h : Heap) (decision : String) : Config :=
  { heap := h, decision := decision,
    workers := c.participants.map (fun p => { p := p, pc := .start }),
    received := [], skipped := [] }

/-- Line 173: `wg.Wait()` returns, every worker is done. -/
def Config.returned (c : Config) : Bool :=
  c.workers.all (fun w => w.pc = .done)

/-- Lines 158-174 under a schedule. -/
def Coordinator.CommitOrAbort (c : Coordinator) (h : Heap) (decision : String)
    (sched : List Choice) : Option Config :=
  exec (Coordinator.CommitOrAbort.init c h decision) sched

/-! ## The set-up of `main` (lines 180-196) -/

/-- Heap holding the given objects at addresses 0, 1, 2, ... -/
def heapOf (objs : List Participant) : Heap :=
  fun a => objs.getD a (NewParticipant "")

/-- Lines 180-188: the coordinator of `main`, P1..P3 at addresses 0..2. -/
def mainCoordinator : Coordinator :=
  ((NewCoordinator.AddParticipant 0).AddParticipant 1).AddParticipant 2

/-- Lines 181-196: the heap of `main` when the prepare phase begins. -/
def mainHeap : Heap :=
  mainCoordinator.StartTransaction
    (mainCoordinator.participants.foldl
      (fun h p => Participant.InitChandyLamportClock h p mainCoordinator.participants)
      (heapOf [NewParticipant "P1", NewParticipant "P2", NewParticipant "P3"]))

/-- The heap of `main` with the three states as given (what the prepare phase
leaves when the draws fall that way). -/
def mainHeapWith (s1 s2 s3 : String) : Heap :=
  setState (setState (setState mainHeap 0 s1) 1 s2) 2 s3

/-- Scenario A (P1..P3 Prepared, decision "COMMIT") once each worker has
taken its first step: all three are inside `ReceiveDecision`. -/
def scenarioA_blocked : Config :=
  { heap := mainHeapWith Prepared Prepared Prepared, decision := "COMMIT",
    workers := [⟨0, .send⟩, ⟨1, .send⟩, ⟨2, .send⟩],
    received := [(0, "COMMIT"), (1, "COMMIT"), (2, "COMMIT")], skipped := [] }

/-- Scenario B (P1..P3 Failure) once each worker has taken its two steps. -/
def scenarioB_done : Config :=
  { heap := mainHeapWith Failure Failure Failure, decision := "COMMIT",
    workers := [⟨0, .done⟩, ⟨1, .done⟩, ⟨2, .done⟩],
    received := [], skipped := [0, 1, 2] }

/-! ## Invariant of the decision phase -/

/-- Steps the workers can still take on their own before they block or
return: two from line 165, one from line 168. -/
def Config.pending (c : Config) : Nat :=
  2 * c.workers.countP (fun w => decide (w.pc = .start)) +
    c.workers.countP (fun w => decide (w.pc = .elseIf))

/-- What holds of every configuration `Coordinator.CommitOrAbort` can reach
from heap `h`, decision `d` and slice `ps`: no worker is past its send, and
nothing was written. -/
structure Inv (h : Heap) (d : String) (ps : List Ptr) (c : Config) : Prop where
  heap_eq : c.heap = h
  decision_eq : c.decision = d
  ptrs : c.workers.map (fun w => w.p) = ps
  pcs : ∀ w ∈ c.workers, w.pc = .start ∨ (w.pc = .elseIf ∧ (h w.p).State ≠ Prepared) ∨
    (w.pc = .send ∧ (h w.p).State = Prepared) ∨ (w.pc = .done ∧ (h w.p).State ≠ Prepared)
  recv : ∀ q, (c.received.map Prod.fst).count q =
    c.workers.countP (fun w => decide (w.p = q ∧ w.pc = .send))
  args : ∀ e ∈ c.received, e.2 = d
  skip : ∀ q ∈ c.skipped, (h q).State = Failure
  logged : ∀ w ∈ c.workers, w.pc = .done → (h w.p).State = Failure → w.p ∈ c.skipped

/-! ## Lemmas -/

theorem setState_State (h : Heap) (p : Ptr) (s : String) : (setState h p s p).State = s := by
  simp [setState]

theorem set_split (l : List Worker) (i : Nat) (w w1 : Worker) (hi : l[i]? = some w) :
    ∃ l1 l2, l = l1 ++ w :: l2 ∧ l.set i w1 = l1 ++ w1 :: l2 := by
  induction l generalizing i with
  | nil => simp at hi
  | cons a t ih =>
    cases i with
    | zero =>
      simp at hi
      exact ⟨[], t, by simp [hi], by simp⟩
    | succ n =>
      simp at hi
      obtain ⟨l1, l2, h1, h2⟩ := ih n hi
      exact ⟨a :: l1, l2, by simp [h1], by simp [h2]⟩

theorem init_inv (c : Coordinator) (h : Heap) (d : String) :
    Inv h d c.participants (Coordinator.CommitOrAbort.init c h d) where
  heap_eq := rfl
  decision_eq := rfl
  ptrs := by simp [Coordinator.CommitOrAbort.init, Function.comp_def]
  pcs := by
    intro w hw
    simp [Coordinator.CommitOrAbort.init] at hw
    obtain ⟨p, _, rfl⟩ := hw
    exact Or.inl rfl
  recv := by
    intro q
    simp only [Coordinator.CommitOrAbort.init, List.map_nil, List.count_nil, List.countP_map]
    symm
    rw [List.countP_eq_zero]
    simp
  args := by simp [Coordinator.CommitOrAbort.init]
  skip := by simp [Coordinator.CommitOrAbort.init]
  logged := by
    intro w hw hd
    simp [Coordinator.CommitOrAbort.init] at hw
    obtain ⟨p, _, rfl⟩ := hw
    simp at hd

theorem init_pending (c : Coordinator) (h : Heap) (d : String) :
    (Coordinator.CommitOrAbort.init c h d).pending = 2 * c.participants.length := by
  simp only [Coordinator.CommitOrAbort.init, Config.pending, List.countP_map]
  rw [List.countP_eq_length.mpr (by simp), List.countP_eq_zero.mpr (by simp)]
  omega

theorem no_panicked {h : Heap} {d : String} {ps : List Ptr} {c : Config} (inv : Inv h d ps c) :
    c.workers.any (fun w => decide (w.pc = .panicked)) = false := by
  rw [List.any_eq_false]
  intro w hw
  rcases inv.pcs w hw with h1 | ⟨h1, _⟩ | ⟨h1, _⟩ | ⟨h1, _⟩ <;> simp [h1]

theorem goto_map {c : Config} {i : Nat} {w : Worker} (hw : c.workers[i]? = some w) (pc1 : PC) :
    (c.goto i w pc1).workers.map (fun w => w.p) = c.workers.map (fun w => w.p) := by
  obtain ⟨l1, l2, e1, e2⟩ := set_split c.workers i w { w with pc := pc1 } hw
  simp only [Config.goto, e2]
  rw [e1]
  simp

theorem goto_mem {c : Config} {i : Nat} {w : Worker} (hw : c.workers[i]? = some w) (pc1 : PC) :
    ∀ v ∈ (c.goto i w pc1).workers, v ∈ c.workers ∨ v = { w with pc := pc1 } := by
  obtain ⟨l1, l2, e1, e2⟩ := set_split c.workers i w { w with pc := pc1 } hw
  simp only [Config.goto, e2]
  rw [e1]
  intro v hv
  simp only [List.mem_append, List.mem_cons] at hv ⊢
  tauto

theorem goto_count {c : Config} {i : Nat} {w : Worker} (hw : c.workers[i]? = some w) (pc1 : PC)
    (P : Worker → Bool) :
    (c.goto i w pc1).workers.countP P + (if P w = true then 1 else 0) =
      c.workers.countP P + (if P { w with pc := pc1 } = true then 1 else 0) := by
  obtain ⟨l1, l2, e1, e2⟩ := set_split c.workers i w { w with pc := pc1 } hw
  simp only [Config.goto, e2]
  rw [e1]
  simp only [List.countP_append, List.countP_cons]
  omega

/-- Moving one worker from control point `pc0` to a different `pc1`. -/
theorem goto_pending {c : Config} {i : Nat} {w : Worker} (hw : c.workers[i]? = some w)
    (pc1 : PC) :
    (c.goto i w pc1).pending + (if w.pc = .start then 2 else 0) + (if w.pc = .elseIf then 1 else 0)
      = c.pending + (if pc1 = .start then 2 else 0) + (if pc1 = .elseIf then 1 else 0) := by
  have hs := goto_count hw pc1 (fun w => decide (w.pc = .start))
  have he := goto_count hw pc1 (fun w => decide (w.pc = .elseIf))
  simp only [decide_eq_true_eq] at hs he
  simp only [Config.pending]
  split_ifs at hs he ⊢ <;> omega

theorem goto_recv {c : Config} {i : Nat} {w : Worker} (hw : c.workers[i]? = some w)
    (hns : w.pc ≠ .send) (pc1 : PC) (q : Ptr) :
    (c.goto i w pc1).workers.countP (fun w => decide (w.p = q ∧ w.pc = .send)) =
      c.workers.countP (fun w => decide (w.p = q ∧ w.pc = .send)) +
        (if w.p = q ∧ pc1 = .send then 1 else 0) := by
  have hc := goto_count hw pc1 (fun w => decide (w.p = q ∧ w.pc = .send))
  simp only [decide_eq_true_eq, hns, and_false, if_false, Nat.add_zero] at hc
  exact hc

theorem step_inv {h : Heap} {d : String} {ps : List Ptr} {c c1 : Config} {ch : Choice}
    (inv : Inv h d ps c) (hs : step c ch = some c1) :
    Inv h d ps c1 ∧ c1.pending < c.pending := by
  cases ch with
  | run i r =>
    simp only [step, no_panicked inv, Bool.false_eq_true, if_false] at hs
    cases hw : c.workers[i]? with
    | none => simp [hw] at hs
    | some w =>
      simp only [hw] at hs
      have hmem : w ∈ c.workers := List.getElem?_mem hw
      rcases inv.pcs w hmem with h1 | ⟨h1, hP⟩ | ⟨h1, _⟩ | ⟨h1, _⟩
      · -- line 165
        simp only [Worker.step, h1, inv.heap_eq, inv.decision_eq] at hs
        by_cases hP : (h w.p).State = Prepared
        · rw [if_pos hP, Option.some.injEq] at hs
          have g2 := goto_pending hw .send
          simp only [h1, if_true] at g2
          subst hs
          refine ⟨⟨inv.heap_eq, inv.decision_eq, (goto_map hw _).trans inv.ptrs, ?_, ?_, ?_,
            inv.skip, ?_⟩, ?_⟩
          · intro v hv
            rcases goto_mem hw _ v hv with hv | rfl
            · exact inv.pcs v hv
            · exact Or.inr (Or.inr (Or.inl ⟨rfl, hP⟩))
          · intro q
            simp only [List.map_append, List.count_append, List.map_cons, List.map_nil]
            rw [goto_recv hw (by simp [h1]) .send q, inv.recv q]
            by_cases hq : w.p = q <;> simp [hq, List.count_cons]
          · intro e he
            simp only [List.mem_append, List.mem_singleton] at he
            rcases he with he | rfl
            · exact inv.args e he
            · rfl
          · intro v hv hd hf
            rcases goto_mem hw _ v hv with hv | rfl
            · exact inv.logged v hv hd hf
            · simp at hd
          · simp only [Config.pending] at g2 ⊢
            simp at g2
            omega
        · rw [if_neg hP, Option.some.injEq] at hs
          have g2 := goto_pending hw .elseIf
          simp only [h1, if_true] at g2
          subst hs
          refine ⟨⟨inv.heap_eq, inv.decision_eq, (goto_map hw _).trans inv.ptrs, ?_, ?_, inv.args,
            inv.skip, ?_⟩, ?_⟩
          · intro v hv
            rcases goto_mem hw _ v hv with hv | rfl
            · exact inv.pcs v hv
            · exact Or.inr (Or.inl ⟨rfl, hP⟩)
          · intro q
            rw [goto_recv hw (by simp [h1]) .elseIf q]
            simpa [Config.goto] using inv.recv q
          · intro v hv hd hf
            rcases goto_mem hw _ v hv with hv | rfl
            · exact inv.logged v hv hd hf
            · simp at hd
          · simp at g2
            omega
      · -- line 168
        simp only [Worker.step, h1, inv.heap_eq] at hs
        have g2 := goto_pending hw .done
        simp only [h1] at g2
        simp at g2
        have pcs1 : ∀ v ∈ (c.goto i w .done).workers, v.pc = .start ∨
            (v.pc = .elseIf ∧ (h v.p).State ≠ Prepared) ∨
            (v.pc = .send ∧ (h v.p).State = Prepared) ∨
            (v.pc = .done ∧ (h v.p).State ≠ Prepared) := by
          intro v hv
          rcases goto_mem hw _ v hv with hv | rfl
          · exact inv.pcs v hv
          · exact Or.inr (Or.inr (Or.inr ⟨rfl, hP⟩))
        have recv1 : ∀ q, (c.received.map Prod.fst).count q =
            (c.goto i w .done).workers.countP (fun w => decide (w.p = q ∧ w.pc = .send)) := by
          intro q
          rw [goto_recv hw (by simp [h1]) .done q, inv.recv q]
          simp
        by_cases hF : (h w.p).State = Failure
        · rw [if_pos hF, Option.some.injEq] at hs
          subst hs
          refine ⟨⟨inv.heap_eq, inv.decision_eq, (goto_map hw _).trans inv.ptrs, pcs1, recv1,
            inv.args, ?_, ?_⟩, by simp only [Config.pending] at g2 ⊢; omega⟩
          · intro q hq
            simp only [List.mem_append, List.mem_singleton] at hq
            rcases hq with hq | rfl
            · exact inv.skip q hq
            · exact hF
          · intro v hv hd hf
            simp only [List.mem_append, List.mem_singleton]
            rcases goto_mem hw _ v hv with hv | rfl
            · exact Or.inl (inv.logged v hv hd hf)
            · exact Or.inr rfl
        · rw [if_neg hF, Option.some.injEq] at hs
          subst hs
          refine ⟨⟨inv.heap_eq, inv.decision_eq, (goto_map hw _).trans inv.ptrs, pcs1, recv1,
            inv.args, inv.skip, ?_⟩, by omega⟩
          intro v hv hd hf
          rcases goto_mem hw _ v hv with hv | rfl
          · exact inv.logged v hv hd hf
          · exact absurd hf hF
      · simp [Worker.step, h1] at hs
      · simp [Worker.step, h1] at hs
  | deliver i j =>
    simp only [step, no_panicked inv, Bool.false_eq_true, if_false] at hs
    cases hi : c.workers[i]? with
    | none => simp [hi] at hs
    | some ws =>
      cases hj : c.workers[j]? with
      | none => simp [hi, hj] at hs
      | some wr =>
        have hmem : wr ∈ c.workers := List.getElem?_mem hj
        rcases inv.pcs wr hmem with h1 | ⟨h1, _⟩ | ⟨h1, _⟩ | ⟨h1, _⟩ <;>
          simp [hi, hj, h1] at hs
  | timeout j =>
    simp only [step, no_panicked inv, Bool.false_eq_true, if_false] at hs
    cases hj : c.workers[j]? with
    | none => simp [hj] at hs
    | some wr =>
      have hmem : wr ∈ c.workers := List.getElem?_mem hj
      rcases inv.pcs wr hmem with h1 | ⟨h1, _⟩ | ⟨h1, _⟩ | ⟨h1, _⟩ <;> simp [hj, h1] at hs

theorem exec_inv {h : Heap} {d : String} {ps : List Ptr} (sched : List Choice) {c c1 : Config}
    (inv : Inv h d ps c) (hs : exec c sched = some c1) :
    Inv h d ps c1 ∧ c1.pending + sched.length ≤ c.pending := by
  induction sched generalizing c with
  | nil =>
    simp only [exec, Option.some.injEq] at hs
    subst hs
    exact ⟨inv, le_refl _⟩
  | cons ch rest ih =>
    simp only [exec] at hs
    cases h1 : step c ch with
    | none => simp [h1] at hs
    | some c2 =>
      simp only [h1] at hs
      obtain ⟨inv2, m2⟩ := step_inv inv h1
      obtain ⟨inv3, m3⟩ := ih inv2 hs
      refine ⟨inv3, ?_⟩
      simp only [List.length_cons]
      omega

/-- Every configuration `Coordinator.CommitOrAbort` reaches satisfies the invariant. -/
theorem reach_inv {c : Coordinator} {h : Heap} {d : String} {sched : List Choice} {cfg : Config}
    (hs : c.CommitOrAbort h d sched = some cfg) :
    Inv h d c.participants cfg ∧ cfg.pending + sched.length ≤ 2 * c.participants.length := by
  have := exec_inv sched (init_inv c h d) hs
  rwa [init_pending] at this

theorem no_delivery {h : Heap} {d : String} {ps : List Ptr} {c : Config} (inv : Inv h d ps c)
    (i j : Nat) : step c (.deliver i j) = none ∧ step c (.timeout j) = none := by
  constructor
  · cases hs : step c (.deliver i j) with
    | none => rfl
    | some c1 =>
      exfalso
      simp only [step, no_panicked inv, Bool.false_eq_true, if_false] at hs
      cases hi : c.workers[i]? with
      | none => simp [hi] at hs
      | some ws =>
        cases hj : c.workers[j]? with
        | none => simp [hi, hj] at hs
        | some wr =>
          have hmem : wr ∈ c.workers := List.getElem?_mem hj
          rcases inv.pcs wr hmem with h1 | ⟨h1, _⟩ | ⟨h1, _⟩ | ⟨h1, _⟩ <;>
            simp [hi, hj, h1] at hs
  · cases hs : step c (.timeout j) with
    | none => rfl
    | some c1 =>
      exfalso
      simp only [step, no_panicked inv, Bool.false_eq_true, if_false] at hs
      cases hj : c.workers[j]? with
      | none => simp [hj] at hs
      | some wr =>
        have hmem : wr ∈ c.workers := List.getElem?_mem hj
        rcases inv.pcs wr hmem with h1 | ⟨h1, _⟩ | ⟨h1, _⟩ | ⟨h1, _⟩ <;> simp [hj, h1] at hs

theorem stuck_of_no_start {h : Heap} {d : String} {ps : List Ptr} {c : Config}
    (inv : Inv h d ps c) (hno : ∀ w ∈ c.workers, w.pc ≠ .start ∧ w.pc ≠ .elseIf) (ch : Choice) :
    step c ch = none := by
  cases hs : step c ch with
  | none => rfl
  | some c1 =>
    exfalso
    have hm := (step_inv inv hs).2
    have hz1 : c.workers.countP (fun w => decide (w.pc = .start)) = 0 := by
      simp only [List.countP_eq_zero]
      intro w hw
      simpa using (hno w hw).1
    have hz2 : c.workers.countP (fun w => decide (w.pc = .elseIf)) = 0 := by
      simp only [List.countP_eq_zero]
      intro w hw
      simpa using (hno w hw).2
    simp only [Config.pending, hz1, hz2] at hm
    omega

theorem not_returned_of_prepared {h : Heap} {d : String} {ps : List Ptr} {c : Config}
    (inv : Inv h d ps c) (hp : ∃ p ∈ ps, (h p).State = Prepared) : c.returned = false := by
  obtain ⟨p, hmem, hst⟩ := hp
  rw [← inv.ptrs, List.mem_map] at hmem
  obtain ⟨w, hw, rfl⟩ := hmem
  simp only [Config.returned, List.all_eq_false]
  refine ⟨w, hw, ?_⟩
  rcases inv.pcs w hw with h1 | ⟨h1, _⟩ | ⟨h1, _⟩ | ⟨_, h2⟩
  · simp [h1]
  · simp [h1]
  · simp [h1]
  · exact absurd hst h2

theorem progress_failed {h : Heap} {d : String} {ps : List Ptr} {c : Config}
    (inv : Inv h d ps c) (hall : ∀ p ∈ ps, (h p).State = Failure)
    (hnot : c.returned = false) : ∃ i, (step c (.run i 0)).isSome = true := by
  simp only [Config.returned, List.all_eq_false] at hnot
  obtain ⟨w, hw, hpc⟩ := hnot
  obtain ⟨i, hi⟩ := List.mem_iff_getElem?.mp hw
  have hF : (h w.p).State = Failure :=
    hall w.p (by rw [← inv.ptrs]; exact List.mem_map.mpr ⟨w, hw, rfl⟩)
  have hP : ¬ (h w.p).State = Prepared := by rw [hF]; decide
  refine ⟨i, ?_⟩
  simp only [step, no_panicked inv, Bool.false_eq_true, if_false, hi]
  rcases inv.pcs w hw with h1 | ⟨h1, _⟩ | ⟨_, h2⟩ | ⟨h1, _⟩
  · simp only [Worker.step, h1, inv.heap_eq]
    rw [if_neg hP]
    rfl
  · simp only [Worker.step, h1, inv.heap_eq]
    rw [if_pos hF]
    rfl
  · exact absurd h2 hP
  · simp [h1] at hpc

theorem completes_failed {h : Heap} {d : String} {ps : List Ptr}
    (hall : ∀ p ∈ ps, (h p).State = Failure) (n : Nat) (c : Config)
    (inv : Inv h d ps c) (hn : c.pending ≤ n) :
    ∃ rest c1, exec c rest = some c1 ∧ c1.returned = true ∧ c1.heap = h := by
  induction n generalizing c with
  | zero =>
    cases hr : c.returned with
    | true => exact ⟨[], c, rfl, hr, inv.heap_eq⟩
    | false =>
      obtain ⟨i, hi⟩ := progress_failed inv hall hr
      obtain ⟨c2, h2⟩ := Option.isSome_iff_exists.mp hi
      have := (step_inv inv h2).2
      omega
  | succ m ih =>
    cases hr : c.returned with
    | true => exact ⟨[], c, rfl, hr, inv.heap_eq⟩
    | false =>
      obtain ⟨i, hi⟩ := progress_failed inv hall hr
      obtain ⟨c2, h2⟩ := Option.isSome_iff_exists.mp hi
      obtain ⟨inv2, m2⟩ := step_inv inv h2
      obtain ⟨rest, c3, e3, r3, h3⟩ := ih c2 inv2 (by omega)
      exact ⟨.run i 0 :: rest, c3, by simp only [exec, h2, e3], r3, h3⟩

theorem foldl_AddParticipant (c : Coordinator) (regs : List Ptr) :
    (regs.foldl Coordinator.AddParticipant c).participants = c.participants ++ regs := by
  induction regs generalizing c with
  | nil => simp
  | cons p rest ih => simp [ih, Coordinator.AddParticipant]

theorem CommitOrAbort_of_Prepared (h : Heap) (p : Ptr) (ev : Recv) (r : Nat)
    (hp : (h p).State = Prepared) :
    Participant.CommitOrAbort h p ev r =
      { heap := assignStates h p (Participant.CommitOrAbort.branch ev),
        trace := Participant.CommitOrAbort.branch ev, elections := [], panic := none } := by
  have hF : ¬ (h p).State = Failure := by rw [hp]; decide
  unfold Participant.CommitOrAbort
  rw [if_neg hF, if_pos hp]

theorem snapshot_loop_ok (p : Ptr) (ps : List Ptr) (h : Heap)
    (hc : (h p).ChandyLamport ≠ none) :
    ∃ h1, Participant.ChandyLamportSnapshot.loop p ps h = .ok h1 := by
  induction ps generalizing h with
  | nil => exact ⟨h, rfl⟩
  | cons q rest ih =>
    unfold Participant.ChandyLamportSnapshot.loop
    by_cases hid : (h q).ID ≠ (h p).ID
    · rw [if_pos hid]
      cases hm : (h p).ChandyLamport with
      | none => exact absurd hm hc
      | some m => exact ih _ (by simp [setClock])
    · rw [if_neg hid]
      exact ih h hc

theorem Prepare_body_ok (h : Heap) (c : Coordinator) (p : Ptr) (r : Nat)
    (hreg : p ∈ c.participants) (hc : (h p).ChandyLamport ≠ none) :
    ∃ h1 sends, Participant.Prepare.body h p (some c) r =
      { heap := setState h1 p (if r < 8 then Failure else Prepared),
        trace := [if r < 8 then Failure else Prepared], elections := sends, panic := none } := by
  obtain ⟨h1, e1⟩ := snapshot_loop_ok p c.participants h hc
  have hlen : ¬ c.participants.length = 0 := by
    intro h0
    rw [List.length_eq_zero] at h0
    rw [h0] at hreg
    exact absurd hreg (List.not_mem_nil p)
  simp only [Participant.Prepare.body, Participant.ChandyLamportSnapshot, e1,
    Participant.RingElection, Participant.RingElection.nextID, if_neg hlen]
  by_cases hco : (h1 p).IsCoordinator = true <;> by_cases hr : r < 8 <;>
    simp only [hco, hr, if_true, if_false, Bool.false_eq_true]
  all_goals exact ⟨h1, _, rfl⟩

/-- The rendezvous of the model is live: were a receiver already waiting in its
`select` when the send is made, the decision would be delivered and the
participant would go through Committing to Committed. -/
theorem deliver_commits :
    (exec { heap := heapOf [{ NewParticipant "P1" with State := Prepared }], decision := "COMMIT",
            workers := [⟨0, .send⟩, ⟨0, .select⟩], received := [(0, "COMMIT")], skipped := [] }
        [.deliver 0 1, .run 1 0, .run 1 0, .run 1 0, .run 0 0]).map
      (fun cfg => ((cfg.heap 0).State, cfg.returned)) = some (Committed, true) := by
  decide

/-! ## Participant.CommitOrAbort -/

/-- C1: a participant in state Prepared that receives decision `d` on its
decision channel returns normally; it ends in Committed exactly when `d` is
"COMMIT", having been assigned Committing and then Committed; for every other
`d` (among them "ABORT", "" and "commit") it is assigned Aborting and then
Aborted. -/
theorem Participant.CommitOrAbort_decision (h : Heap) (p : Ptr) (d : String) (r : Nat)
    (hp : (h p).State = Prepared) :
    (Participant.CommitOrAbort h p (.value d) r).panic = none ∧
    (((Participant.CommitOrAbort h p (.value d) r).heap p).State = Committed ↔ d = "COMMIT") ∧
    (d = "COMMIT" →
      (Participant.CommitOrAbort h p (.value d) r).trace = [Committing, Committed]) ∧
    (d ≠ "COMMIT" →
      (Participant.CommitOrAbort h p (.value d) r).trace = [Aborting, Aborted] ∧
      ((Participant.CommitOrAbort h p (.value d) r).heap p).State = Aborted) ∧
    (d ∈ ["ABORT", "", "commit"] →
      ((Participant.CommitOrAbort h p (.value d) r).heap p).State = Aborted) := by
  have key : ∀ e : String, e ≠ "COMMIT" →
      (Participant.CommitOrAbort h p (.value e) r).trace = [Aborting, Aborted] ∧
      ((Participant.CommitOrAbort h p (.value e) r).heap p).State = Aborted := by
    intro e he
    rw [CommitOrAbort_of_Prepared h p _ r hp]
    simp [Participant.CommitOrAbort.branch, he, assignStates, setState_State]
  refine ⟨by rw [CommitOrAbort_of_Prepared h p _ r hp], ?_, ?_, key d, ?_⟩
  · by_cases hd : d = "COMMIT"
    · rw [CommitOrAbort_of_Prepared h p _ r hp]
      simp [Participant.CommitOrAbort.branch, hd, assignStates, setState_State]
    · rw [(key d hd).2]
      simp only [hd, iff_false]
      decide
  · intro hd
    rw [CommitOrAbort_of_Prepared h p _ r hp]
    simp [Participant.CommitOrAbort.branch, hd]
  · intro hd
    refine (key d ?_).2
    simp only [List.mem_cons, List.mem_singleton, List.not_mem_nil, or_false] at hd
    rcases hd with rfl | rfl | rfl <;> decide

/-- Witness for C1 at participant P1 of `main`, Prepared, receiving "commit". -/
theorem Participant.CommitOrAbort_decision_witness :
    (mainHeapWith Prepared Failure Failure 0).State = Prepared ∧
    ((Participant.CommitOrAbort (mainHeapWith Prepared Failure Failure) 0
      (.value "commit") 0).heap 0).State = Aborted :=
  ⟨by decide,
   ((Participant.CommitOrAbort_decision (mainHeapWith Prepared Failure Failure) 0 "commit" 0
      (by decide)).2.2.2.1 (by decide)).2⟩

/-- C2: a participant in state Prepared whose wait for a decision times out
returns normally after a single assignment to its state, Aborted; Aborting is
never assigned. -/
theorem Participant.CommitOrAbort_timeout (h : Heap) (p : Ptr) (r : Nat)
    (hp : (h p).State = Prepared) :
    (Participant.CommitOrAbort h p .timeout r).trace = [Aborted] ∧
    ((Participant.CommitOrAbort h p .timeout r).heap p).State = Aborted ∧
    Aborting ∉ (Participant.CommitOrAbort h p .timeout r).trace ∧
    (Participant.CommitOrAbort h p .timeout r).panic = none := by
  rw [CommitOrAbort_of_Prepared h p _ r hp]
  refine ⟨rfl, ?_, ?_, rfl⟩
  · simp [Participant.CommitOrAbort.branch, assignStates, setState_State]
  · simp only [Participant.CommitOrAbort.branch]
    decide

/-- Witness for C2 at participant P2 of `main`. -/
theorem Participant.CommitOrAbort_timeout_witness :
    (mainHeapWith Failure Prepared Failure 1).State = Prepared ∧
    (Participant.CommitOrAbort (mainHeapWith Failure Prepared Failure) 1 .timeout 0).trace
      = [Aborted] :=
  ⟨by decide,
   (Participant.CommitOrAbort_timeout (mainHeapWith Failure Prepared Failure) 1 0 (by decide)).1⟩

/-- C5 (what the code does): `CommitOrAbort` on a participant in state Failure
always ends in a panic, because `Prepare` is re-entered with a nil WaitGroup;
when the participant's `Coordinator` field is nil, as `NewParticipant` leaves
it, the panic is raised before anything is written, so the participant is still
in state Failure. -/
theorem Participant.CommitOrAbort_recovery_panics (h : Heap) (p : Ptr) (ev : Recv) (r : Nat)
    (hp : (h p).State = Failure) :
    (Participant.CommitOrAbort h p ev r).panic ≠ none ∧
    ((h p).Coordinator = none →
      (Participant.CommitOrAbort h p ev r).panic = some .nilDereference ∧
      (Participant.CommitOrAbort h p ev r).heap = h ∧
      (Participant.CommitOrAbort h p ev r).trace = []) := by
  constructor
  · simp only [Participant.CommitOrAbort, hp, if_true, Participant.Prepare, WaitGroup.Done]
    cases (Participant.Prepare.body h p (h p).Coordinator r).panic <;> simp
  · intro hc
    simp [Participant.CommitOrAbort, hp, Participant.Prepare, WaitGroup.Done,
      Participant.Prepare.body, hc, Participant.ChandyLamportSnapshot]

/-- Witness for C5 at participant P1 of `main` after a failed prepare. -/
theorem Participant.CommitOrAbort_recovery_panics_witness :
    (mainHeapWith Failure Failure Failure 0).State = Failure ∧
    (mainHeapWith Failure Failure Failure 0).Coordinator = none ∧
    (Participant.CommitOrAbort (mainHeapWith Failure Failure Failure) 0 .timeout 9).panic
      = some .nilDereference :=
  ⟨by decide, by decide,
   ((Participant.CommitOrAbort_recovery_panics (mainHeapWith Failure Failure Failure) 0 .timeout 9
      (by decide)).2 (by decide)).1⟩

/-- C6: `Participant.CommitOrAbort` leaves the heap alone, assigns nothing and
returns normally in every state other than Failure and Prepared; Preparing,
Committing, Committed, Aborting and Aborted are such states.  No configuration
reached by `Coordinator.CommitOrAbort`, for any decision and schedule, has
changed the state of such a participant, in particular of one that was
Committed or Aborted. -/
theorem CommitOrAbort_terminal_noop (h : Heap) (p : Ptr) (ev : Recv) (r : Nat)
    (c : Coordinator) (d : String) (sched : List Choice)
    (hF : (h p).State ≠ Failure) (hP : (h p).State ≠ Prepared) :
    (Participant.CommitOrAbort h p ev r).heap = h ∧
    (Participant.CommitOrAbort h p ev r).trace = [] ∧
    (Participant.CommitOrAbort h p ev r).panic = none ∧
    (∀ cfg, c.CommitOrAbort h d sched = some cfg → (cfg.heap p).State = (h p).State) ∧
    (∀ s ∈ [Preparing, Committing, Committed, Aborting, Aborted], s ≠ Failure ∧ s ≠ Prepared) := by
  refine ⟨?_, ?_, ?_, ?_, by decide⟩
  · simp [Participant.CommitOrAbort, hF, hP]
  · simp [Participant.CommitOrAbort, hF, hP]
  · simp [Participant.CommitOrAbort, hF, hP]
  · intro cfg hs
    rw [(reach_inv hs).1.heap_eq]

/-- Witness for C6: P1 Committed and P2 Aborted in the coordinator of `main`. -/
theorem CommitOrAbort_terminal_noop_witness :
    ((mainHeapWith Committed Aborted Failure 0).State ≠ Failure ∧
     (mainHeapWith Committed Aborted Failure 0).State ≠ Prepared) ∧
    (Participant.CommitOrAbort (mainHeapWith Committed Aborted Failure) 0 (.value "ABORT") 0).heap
      = mainHeapWith Committed Aborted Failure ∧
    (Participant.CommitOrAbort (mainHeapWith Committed Aborted Failure) 1 (.value "COMMIT") 0).heap
      = mainHeapWith Committed Aborted Failure :=
  ⟨⟨by decide, by decide⟩,
   (CommitOrAbort_terminal_noop (mainHeapWith Committed Aborted Failure) 0 (.value "ABORT") 0
      mainCoordinator "ABORT" [] (by decide) (by decide)).1,
   (CommitOrAbort_terminal_noop (mainHeapWith Committed Aborted Failure) 1 (.value "COMMIT") 0
      mainCoordinator "COMMIT" [] (by decide) (by decide)).1⟩

/-! ## Participant.Prepare -/

/-- C8 as stated fails: P1 and P2 made by `NewParticipant` and registered, the
clock of P1 never initialised.  `Prepare` on P1 with draw 9 panics in the
snapshot, on the write to the nil map, and P1 is left in state Preparing, not
Prepared. -/
theorem Participant.Prepare_nil_clock :
    0 ∈ ((NewCoordinator.AddParticipant 0).AddParticipant 1).participants ∧
    (Participant.Prepare (heapOf [NewParticipant "P1", NewParticipant "P2"]) 0
      (some ((NewCoordinator.AddParticipant 0).AddParticipant 1)) (some 2) 9).1.panic
        = some .nilMapAssignment ∧
    ((Participant.Prepare (heapOf [NewParticipant "P1", NewParticipant "P2"]) 0
      (some ((NewCoordinator.AddParticipant 0).AddParticipant 1)) (some 2) 9).1.heap 0).State
        = Preparing ∧
    ((Participant.Prepare (heapOf [NewParticipant "P1", NewParticipant "P2"]) 0
      (some ((NewCoordinator.AddParticipant 0).AddParticipant 1)) (some 2) 9).1.heap 0).State
        ≠ Prepared := by
  decide

/-- C8 amended: for a participant whose clock map has been initialised and
that is registered with the coordinator passed in, `Prepare` with failure draw
`r` assigns the state once, Failure when `r < 8` and Prepared otherwise, and
returns normally when the WaitGroup counter is positive; of the ten draws
0..9 exactly eight end in Failure and exactly two in Prepared. -/
theorem Participant.Prepare_draw (h : Heap) (c : TwoPhaseCommit.Coordinator) (p : Ptr)
    (wg : Option Nat) (r : Nat)
    (hreg : p ∈ c.participants) (hc : (h p).ChandyLamport ≠ none) :
    ((Participant.Prepare h p (some c) wg r).1.heap p).State
      = (if r < 8 then Failure else Prepared) ∧
    (Participant.Prepare h p (some c) wg r).1.trace = [if r < 8 then Failure else Prepared] ∧
    (∀ k, wg = some (k + 1) →
      (Participant.Prepare h p (some c) wg r).1.panic = none ∧
      (Participant.Prepare h p (some c) wg r).2 = some k) ∧
    ((List.range 10).filter (fun r =>
      decide (((Participant.Prepare h p (some c) wg r).1.heap p).State = Failure))).length = 8 ∧
    ((List.range 10).filter (fun r =>
      decide (((Participant.Prepare h p (some c) wg r).1.heap p).State = Prepared))).length = 2 := by
  have key : ∀ r, ((Participant.Prepare h p (some c) wg r).1.heap p).State
      = (if r < 8 then Failure else Prepared) := by
    intro r
    obtain ⟨h1, sends, e⟩ := Prepare_body_ok h c p r hreg hc
    simp only [Participant.Prepare, e]
    cases WaitGroup.Done wg <;> simp [setState_State]
  refine ⟨key r, ?_, ?_, ?_, ?_⟩
  · obtain ⟨h1, sends, e⟩ := Prepare_body_ok h c p r hreg hc
    simp only [Participant.Prepare, e]
    cases WaitGroup.Done wg <;> simp
  · intro k hk
    obtain ⟨h1, sends, e⟩ := Prepare_body_ok h c p r hreg hc
    simp [Participant.Prepare, e, hk, WaitGroup.Done]
  · simp only [key]
    decide
  · simp only [key]
    decide

/-- Witness for C8 amended: P1 of `main` with draw 7, then with draw 8. -/
theorem Participant.Prepare_draw_witness :
    (0 ∈ mainCoordinator.participants ∧ (mainHeap 0).ChandyLamport ≠ none) ∧
    ((Participant.Prepare mainHeap 0 (some mainCoordinator) (some 3) 7).1.heap 0).State
      = Failure ∧
    ((Participant.Prepare mainHeap 0 (some mainCoordinator) (some 3) 8).1.heap 0).State
      = Prepared :=
  ⟨⟨by decide, by decide⟩,
   (Participant.Prepare_draw mainHeap mainCoordinator 0 (some 3) 7 (by decide) (by decide)).1,
   (Participant.Prepare_draw mainHeap mainCoordinator 0 (some 3) 8 (by decide) (by decide)).1⟩

/-! ## Coordinator.AddParticipant and the election index -/

/-- C9: `AddParticipant(p)` turns the sequence `ps` into `ps` followed by `p`:
one entry more, earlier entries in place, `p` last.  `NewCoordinator` has no
participants, so registering `regs` one after the other yields `regs`.  Nothing
is checked: `p` is appended also when it, or a participant with its ID, is
already registered. -/
theorem Coordinator.AddParticipant_appends (c : Coordinator) (p : Ptr) :
    (c.AddParticipant p).participants = c.participants ++ [p] ∧
    (c.AddParticipant p).participants.length = c.participants.length + 1 ∧
    (∀ i, i < c.participants.length →
      (c.AddParticipant p).participants[i]? = c.participants[i]?) ∧
    (c.AddParticipant p).participants.getLast? = some p ∧
    NewCoordinator.participants = [] ∧
    (∀ regs : List Ptr, (regs.foldl Coordinator.AddParticipant NewCoordinator).participants = regs) ∧
    (c.AddParticipant p).participants.count p = c.participants.count p + 1 ∧
    (∀ h : Heap, (∃ q ∈ c.participants, (h q).ID = (h p).ID) →
      (c.AddParticipant p).participants = c.participants ++ [p]) := by
  refine ⟨rfl, by simp [Coordinator.AddParticipant], ?_, by simp [Coordinator.AddParticipant],
    rfl, ?_, by simp [Coordinator.AddParticipant], fun _ _ => rfl⟩
  · intro i hi
    simp [Coordinator.AddParticipant, List.getElem?_append_left hi]
  · intro regs
    simp [foldl_AddParticipant, NewCoordinator]

/-- C10: with `n ≥ 1` registered participants the index `(n + 1) mod n` of
`RingElection` is below `n`, is 0 for `n = 1` and 1 for `n ≥ 2`, and is the
same whichever participant calls.  The division panics exactly when `n = 0`,
and every call of `Participant.Prepare` launched by `Coordinator.Prepare` is for
a registered participant and gets a coordinator for which the index is
defined. -/
theorem RingElection_index (c : Coordinator) (hn : 1 ≤ c.participants.length) :
    (∃ idx, Participant.RingElection.nextID c = .ok idx ∧
      idx < c.participants.length ∧
      (c.participants.length = 1 → idx = 0) ∧
      (2 ≤ c.participants.length → idx = 1) ∧
      (∀ (h : Heap) (p : Ptr), Participant.RingElection h p (some c) = .ok (idx, (h p).ID))) ∧
    (∀ c1 : Coordinator,
      Participant.RingElection.nextID c1 = .error .divideByZero ↔ c1.participants.length = 0) ∧
    (∀ (c1 : Coordinator) (call : Ptr × Coordinator), call ∈ Coordinator.Prepare.launches c1 →
      call.2 = c1 ∧ call.1 ∈ c1.participants ∧
      ∃ idx, Participant.RingElection.nextID call.2 = .ok idx ∧ idx < c1.participants.length) := by
  have h0 : ¬ c.participants.length = 0 := by omega
  refine ⟨⟨(c.participants.length + 1) % c.participants.length, ?_, ?_, ?_, ?_, ?_⟩, ?_, ?_⟩
  · simp [Participant.RingElection.nextID, h0]
  · exact Nat.mod_lt _ (by omega)
  · intro h1
    simp [h1]
  · intro h2
    rw [Nat.add_mod_left, Nat.mod_eq_of_lt h2]
  · intro h p
    simp [Participant.RingElection, Participant.RingElection.nextID, h0]
  · intro c1
    by_cases hz : c1.participants.length = 0 <;> simp [Participant.RingElection.nextID, hz]
  · intro c1 call hcall
    simp only [Coordinator.Prepare.launches, List.mem_map] at hcall
    obtain ⟨q, hq, rfl⟩ := hcall
    have hpos : 0 < c1.participants.length := List.length_pos_of_mem hq
    have hz : ¬ c1.participants.length = 0 := by omega
    refine ⟨rfl, hq, (c1.participants.length + 1) % c1.participants.length, ?_, Nat.mod_lt _ hpos⟩
    simp only [Participant.RingElection.nextID, if_neg hz]

/-- Witness for C10: the three participants of `main`, index 1. -/
theorem RingElection_index_witness :
    1 ≤ mainCoordinator.participants.length ∧
    ∃ idx, Participant.RingElection.nextID mainCoordinator = .ok idx ∧
      idx < mainCoordinator.participants.length :=
  ⟨by decide,
   (RingElection_index mainCoordinator (by decide)).1.imp (fun _ hx => ⟨hx.1, hx.2.1⟩)⟩

/-! ## Coordinator.CommitOrAbort -/

/-- C3: in every configuration `Coordinator.CommitOrAbort` reaches, under any
decision and schedule, a registered participant that was in state Failure is
still in state Failure and `ReceiveDecision` was never called on it; once the
call has returned, line 169 has been printed for it.  When every registered
participant is in state Failure the call returns: a run takes at most two steps
per participant, changes nothing on the heap, delivers nothing, can always go on
until it has returned, and can be completed to a return. -/
theorem Coordinator.CommitOrAbort_skips_failed (c : Coordinator) (h : Heap) (d : String)
    (sched : List Choice) (cfg : Config) (hs : c.CommitOrAbort h d sched = some cfg) :
    (∀ p ∈ c.participants, (h p).State = Failure →
      (cfg.heap p).State = Failure ∧ p ∉ cfg.received.map Prod.fst ∧
      (cfg.returned = true → p ∈ cfg.skipped)) ∧
    ((∀ p ∈ c.participants, (h p).State = Failure) →
      cfg.heap = h ∧ cfg.received = [] ∧ sched.length ≤ 2 * c.participants.length ∧
      (cfg.returned = false → ∃ i, (step cfg (.run i 0)).isSome = true) ∧
      (∃ rest cfg1, exec cfg rest = some cfg1 ∧ cfg1.returned = true ∧ cfg1.heap = h)) := by
  obtain ⟨inv, hm⟩ := reach_inv hs
  have hnot : ∀ p, (h p).State = Failure → p ∉ cfg.received.map Prod.fst := by
    intro p hF
    rw [← List.count_eq_zero, inv.recv p, List.countP_eq_zero]
    intro w hw
    rcases inv.pcs w hw with h1 | ⟨h1, _⟩ | ⟨_, h2⟩ | ⟨h1, _⟩
    · simp [h1]
    · simp [h1]
    · intro hq
      simp only [decide_eq_true_eq] at hq
      rw [hq.1, hF] at h2
      exact absurd h2 (by decide)
    · simp [h1]
  refine ⟨?_, ?_⟩
  · intro p hp hF
    refine ⟨by rw [inv.heap_eq]; exact hF, hnot p hF, ?_⟩
    intro hr
    rw [← inv.ptrs, List.mem_map] at hp
    obtain ⟨w, hw, rfl⟩ := hp
    simp only [Config.returned, List.all_eq_true, decide_eq_true_eq] at hr
    exact inv.logged w hw (hr w hw) hF
  · intro hall
    refine ⟨inv.heap_eq, ?_, by omega, progress_failed inv hall,
      completes_failed hall _ cfg inv (le_refl _)⟩
    apply List.eq_nil_iff_forall_not_mem.mpr
    intro e he
    have hc : 0 < (cfg.received.map Prod.fst).count e.1 :=
      List.count_pos_iff.mpr (List.mem_map.mpr ⟨e, he, rfl⟩)
    rw [inv.recv e.1, List.countP_pos_iff] at hc
    obtain ⟨w, hw, hwp⟩ := hc
    simp only [decide_eq_true_eq] at hwp
    have hF : (h w.p).State = Failure :=
      hall w.p (by rw [← inv.ptrs]; exact List.mem_map.mpr ⟨w, hw, rfl⟩)
    rcases inv.pcs w hw with h1 | ⟨h1, _⟩ | ⟨_, h2⟩ | ⟨h1, _⟩
    · rw [h1] at hwp; exact absurd hwp.2 (by simp)
    · rw [h1] at hwp; exact absurd hwp.2 (by simp)
    · rw [hF] at h2; exact absurd h2 (by decide)
    · rw [h1] at hwp; exact absurd hwp.2 (by simp)

/-- Witness for C3: scenario B, the three workers run in turn. -/
theorem Coordinator.CommitOrAbort_skips_failed_witness :
    mainCoordinator.CommitOrAbort (mainHeapWith Failure Failure Failure) "COMMIT"
      [.run 0 0, .run 1 0, .run 0 0, .run 2 0, .run 1 0, .run 2 0] = some scenarioB_done ∧
    scenarioB_done.returned = true ∧
    (∀ p ∈ mainCoordinator.participants, (mainHeapWith Failure Failure Failure p).State = Failure →
      (scenarioB_done.heap p).State = Failure ∧ p ∉ scenarioB_done.received.map Prod.fst ∧
      (scenarioB_done.returned = true → p ∈ scenarioB_done.skipped)) :=
  ⟨rfl, by decide,
   (Coordinator.CommitOrAbort_skips_failed mainCoordinator (mainHeapWith Failure Failure Failure)
      "COMMIT" [.run 0 0, .run 1 0, .run 0 0, .run 2 0, .run 1 0, .run 2 0] scenarioB_done rfl).1⟩

/-- C4 (what the code does): when some registered participant is in state
Prepared, `Coordinator.CommitOrAbort` never returns and never changes a state.
Each worker for a Prepared participant stops inside `ReceiveDecision`; its send
is never received, because the only receive is in the call that follows it in
the same worker; once every worker has read the state, no step is possible. -/
theorem Coordinator.CommitOrAbort_blocks (c : Coordinator) (h : Heap) (d : String)
    (sched : List Choice) (cfg : Config) (hs : c.CommitOrAbort h d sched = some cfg)
    (hp : ∃ p ∈ c.participants, (h p).State = Prepared) :
    cfg.returned = false ∧ cfg.heap = h ∧
    (∀ w ∈ cfg.workers, w.pc = .start ∨ w.pc = .elseIf ∨ w.pc = .send ∨ w.pc = .done) ∧
    (∀ i j, step cfg (.deliver i j) = none) ∧
    ((∀ w ∈ cfg.workers, w.pc ≠ .start ∧ w.pc ≠ .elseIf) → ∀ ch, step cfg ch = none) := by
  obtain ⟨inv, _⟩ := reach_inv hs
  refine ⟨not_returned_of_prepared inv hp, inv.heap_eq, ?_, fun i j => (no_delivery inv i j).1,
    fun hno ch => stuck_of_no_start inv hno ch⟩
  intro w hw
  rcases inv.pcs w hw with h1 | ⟨h1, _⟩ | ⟨h1, _⟩ | ⟨h1, _⟩
  · exact Or.inl h1
  · exact Or.inr (Or.inl h1)
  · exact Or.inr (Or.inr (Or.inl h1))
  · exact Or.inr (Or.inr (Or.inr h1))

/-- Witness for C4: scenario A, decision "COMMIT"; after the three workers have
run once nothing can move, the call has not returned and P1..P3 are still
Prepared. -/
theorem Coordinator.CommitOrAbort_blocks_witness :
    (mainCoordinator.CommitOrAbort (mainHeapWith Prepared Prepared Prepared) "COMMIT"
      [.run 0 0, .run 1 0, .run 2 0] = some scenarioA_blocked ∧
     ∃ p ∈ mainCoordinator.participants, (mainHeapWith Prepared Prepared Prepared p).State = Prepared) ∧
    scenarioA_blocked.returned = false ∧
    (∀ ch, step scenarioA_blocked ch = none) ∧
    (∀ p ∈ mainCoordinator.participants, (scenarioA_blocked.heap p).State = Prepared) :=
  ⟨⟨rfl, 0, by decide, by decide⟩,
   (Coordinator.CommitOrAbort_blocks mainCoordinator (mainHeapWith Prepared Prepared Prepared)
      "COMMIT" [.run 0 0, .run 1 0, .run 2 0] scenarioA_blocked rfl ⟨0, by decide, by decide⟩).1,
   (Coordinator.CommitOrAbort_blocks mainCoordinator (mainHeapWith Prepared Prepared Prepared)
      "COMMIT" [.run 0 0, .run 1 0, .run 2 0] scenarioA_blocked rfl ⟨0, by decide, by decide⟩).2.2.2.2
      (by decide),
   by decide⟩

/-- C7 as stated fails: the same Prepared participant registered twice; both
workers call `ReceiveDecision` on it. -/
theorem ReceiveDecision_twice :
    (((NewCoordinator.AddParticipant 0).AddParticipant 0).CommitOrAbort
        (heapOf [{ NewParticipant "P1" with State := Prepared }]) "COMMIT"
        [.run 0 0, .run 1 0]).map (fun cfg => (cfg.received.map Prod.fst).count 0) = some 2 := by
  decide

/-- C7 amended: for the coordinator built by registering `regs` in order, any
decision and any schedule, `ReceiveDecision` is called on a participant at most
as many times as the participant is registered, hence at most once on a
participant registered once, and always with the coordinator's decision. -/
theorem ReceiveDecision_per_registration (regs : List Ptr) (h : Heap) (d : String)
    (sched : List Choice) (cfg : Config) (q : Ptr)
    (hs : (regs.foldl Coordinator.AddParticipant NewCoordinator).CommitOrAbort h d sched
      = some cfg) :
    (cfg.received.map Prod.fst).count q ≤ regs.count q ∧
    (regs.count q ≤ 1 → (cfg.received.map Prod.fst).count q ≤ 1) ∧
    (∀ e ∈ cfg.received, e.2 = d) := by
  obtain ⟨inv, _⟩ := reach_inv hs
  have hps : (regs.foldl Coordinator.AddParticipant NewCoordinator).participants = regs := by
    simp [foldl_AddParticipant, NewCoordinator]
  have hle : (cfg.received.map Prod.fst).count q ≤ regs.count q := by
    rw [inv.recv q, ← hps, ← inv.ptrs, List.count, List.countP_map]
    apply List.countP_mono_left
    intro w _ hw
    simp only [decide_eq_true_eq] at hw
    simp [hw.1]
  exact ⟨hle, fun h1 => le_trans hle h1, inv.args⟩

/-- Witness for C7 amended: scenario A, built by three registrations. -/
theorem ReceiveDecision_per_registration_witness :
    ([0, 1, 2].foldl Coordinator.AddParticipant NewCoordinator).CommitOrAbort
      (mainHeapWith Prepared Prepared Prepared) "COMMIT" [.run 0 0, .run 1 0, .run 2 0]
      = some scenarioA_blocked ∧
    (scenarioA_blocked.received.map Prod.fst).count 1 ≤ 1 :=
  ⟨rfl,
   (ReceiveDecision_per_registration [0, 1, 2] (mainHeapWith Prepared Prepared Prepared) "COMMIT"
      [.run 0 0, .run 1 0, .run 2 0] scenarioA_blocked 1 rfl).2.1 (by decide)⟩

end TwoPhaseCommit
